import Mathlib

/-!
# A verified model of `src/cleaning.py`

This file gives a shallow embedding of the six data-cleaning helpers in
`src/cleaning.py` (`clean_headers`, `check_missing`, `check_negative`,
`create_time_vars`, `convert_to_categorical`, `label_encode`) and proves
the behavioral properties claimed for them.

Modelling conventions:
* A dataframe is an ordered association list of column names to columns
  (`DataFrame`).  A column carries its declared dtype (`Kind`) and its list
  of cell values (`Value`).  Machine floats only occur as container values
  that are compared or counted, never arithmetically combined, so numeric
  cells are modelled as integers and missing cells (`NaN`/`NaT`/`None`) as
  the distinguished value `Value.na`.
* Fractions and percentages (`check_missing`) are modelled as rationals.
* Python functions that mutate the caller's dataframe in place are modelled
  as functions returning the new dataframe state.  `create_time_vars` is
  split into `create_time_vars_inplace` (the state of the caller-supplied
  object after the call: lines 134-154 mutate in place) and
  `create_time_vars` (the returned dataframe: line 157 rebinds the local
  name to the fresh copy produced by `DataFrame.drop`).
* `pandas.Series.sort_values(ascending=False)` sorts with numpy's default
  `kind='quicksort'` (an introsort), which is not stable, so the program
  leaves the relative order of tied values unspecified.  The model must be
  a function, so it resolves ties one fixed way (a stable descending sort,
  `List.insertionSort`); only consequences that are insensitive to the tie
  order (membership, sortedness, value bounds) are read off the model.
* `sklearn.preprocessing.LabelEncoder.fit_transform` assigns 0-based codes
  in the sorted order of the distinct values; sortedness is with respect to
  a fixed total order `Value.ble` on cell values (integers before strings
  before dates, with missing values last, as `numpy` sorts `NaN` last).
* Reads of a column name that is absent (a `KeyError` in pandas) are
  modelled as no-ops; the theorems put the presence of the named column in
  their hypotheses.
* Python `str.lower`/`str.upper` are modelled on the ASCII fragment by
  `Char.toLower`/`Char.toUpper` applied characterwise.
-/

/-- Declared dtype ("kind") of a pandas column: `number`, `category`,
`datetime64`, or `object` (text). -/
inductive Kind where
  | numeric
  | categorical
  | datetime
  | text
deriving DecidableEq, Repr

/-- The calendar date carried by a pandas timestamp. -/
structure Date where
  year : Nat
  month : Nat
  day : Nat
deriving DecidableEq, Repr

/-- A cell value: missing (`NaN`/`NaT`), a number, a string, or a date. -/
inductive Value where
  | na
  | num (z : Int)
  | str (s : String)
  | date (d : Date)
deriving DecidableEq, Repr

/-- A column: a declared dtype together with the list of cell values. -/
structure Column where
  kind : Kind
  values : List Value
deriving DecidableEq, Repr

/-- A dataframe: an ordered association of column names to columns. -/
abbrev DataFrame := List (String × Column)

/-- The column labels of a dataframe, in order (`df.columns`). -/
def colNames (df : DataFrame) : List String := df.map Prod.fst

/-- Column selection `df[n]` (first matching label). -/
def getCol (df : DataFrame) (n : String) : Option Column :=
  (df.find? (fun p => decide (p.1 = n))).map Prod.snd

/-- Column assignment `df[n] = c`: replaces the column in place if the
label exists, otherwise appends it at the end of the column order. -/
def setCol (df : DataFrame) (n : String) (c : Column) : DataFrame :=
  if df.any (fun p => decide (p.1 = n)) then
    df.map (fun p => if p.1 = n then (n, c) else p)
  else df ++ [(n, c)]

/-- `df.drop(n, axis=1)`: produces a new dataframe without the labelled
column (the input dataframe is not modified). -/
def dropCol (df : DataFrame) (n : String) : DataFrame :=
  df.filter (fun p => decide (¬ p.1 = n))

/-! ## `clean_headers` (src/cleaning.py lines 8-45) -/

/-- `name.replace(' ', '')`: removes every space character. -/
def removeSpaces (s : String) : String := ⟨s.data.filter (fun c => decide (¬ c = ' '))⟩

/-- One character of `name.replace('-', '_')`. -/
def dashToUnderscore (c : Char) : Char := if c = '-' then '_' else c

/-- `name.replace('-', '_')`: replaces every dash by an underscore. -/
def replaceDashes (s : String) : String := ⟨s.data.map dashToUnderscore⟩

/-- `name.lower()` on the ASCII fragment. -/
def lowerName (s : String) : String := ⟨s.data.map Char.toLower⟩

/-- `name.upper()` on the ASCII fragment. -/
def upperName (s : String) : String := ⟨s.data.map Char.toUpper⟩

/-- `df.columns = df.columns.map(f)`: renames every column. -/
def renameAll (df : DataFrame) (f : String → String) : DataFrame :=
  df.map (fun p => (f p.1, p.2))

/-- `clean_headers` (lines 8-45): applies the requested header
transformations in the fixed source order
strip spaces, then dashes to underscores, then lowercase, then uppercase.
Default switch values as in the source signature (line 8). -/
def clean_headers (df : DataFrame) (remove_whitespace : Bool := true)
    (replace_dash : Bool := false) (lowercase : Bool := false)
    (uppercase : Bool := false) : DataFrame :=
  let df1 := if remove_whitespace then renameAll df removeSpaces else df
  let df2 := if replace_dash then renameAll df1 replaceDashes else df1
  let df3 := if lowercase then renameAll df2 lowerName else df2
  if uppercase then renameAll df3 upperName else df3

/-! ## `check_missing` (src/cleaning.py lines 48-71) -/

/-- `pd.isnull` on one cell. -/
def isNA (v : Value) : Bool := match v with | .na => true | _ => false

/-- `df[col].isnull().mean()`: the fraction of missing cells (pandas yields
`NaN` for a zero-row column, which the `> 0` filter below discards, exactly
as the rational convention `0 / 0 = 0` does). -/
def missingFrac (c : Column) : ℚ := (c.values.countP isNA : ℚ) / (c.values.length : ℚ)

/-- `Series.sort_values(ascending=False)` with the default
`kind='quicksort'`: a descending sort by value.  The numpy introsort is
unstable, so the program does not fix the order of tied values; the model,
being a function, resolves ties one fixed way (stably).  Theorems about
`check_missing` therefore only state properties that hold for every
descending sort, i.e. that do not depend on the tie order. -/
def sortDescBySnd (l : List (String × ℚ)) : List (String × ℚ) :=
  l.insertionSort (fun a b => b.2 ≤ a.2)

/-- `check_missing` (lines 48-71): per-column missing fractions, sorted
descending, scaled to percentages, keeping the strictly positive ones. -/
def check_missing (df : DataFrame) : List (String × ℚ) :=
  let fracs := df.map (fun p => (p.1, missingFrac p.2))
  let sorted := sortDescBySnd fracs
  (sorted.map (fun p => (p.1, p.2 * 100))).filter (fun p => decide (0 < p.2))

/-! ## `check_negative` (src/cleaning.py lines 74-103) -/

/-- One comparison of `df[var] < 0`: strictly negative numeric cell.
A missing value compared with `0` is not strictly negative. -/
def isNegative (v : Value) : Bool := match v with | .num z => decide (z < 0) | _ => false

/-- `check_negative` (lines 74-103): for every numeric, non-excluded
column, whether any cell is strictly negative; the report is an assoc list
indexed by the checked column names (`orient='index'`). -/
def check_negative (df : DataFrame) (exclude_vars : List String := []) :
    List (String × Bool) :=
  let numeric_vars := (df.filter (fun p => decide (p.2.kind = .numeric))).map Prod.fst
  let vars_to_check := numeric_vars.filter (fun v => decide (¬ v ∈ exclude_vars))
  let neg_values :=
    vars_to_check.map (fun var => ((getCol df var).map (fun c => c.values.any isNegative)).getD false)
  vars_to_check.zip neg_values

/-! ## `create_time_vars` (src/cleaning.py lines 109-160) -/

/-- The English month names used by `Series.dt.month_name()`. -/
def monthNames : List String :=
  ["January", "February", "March", "April", "May", "June", "July",
   "August", "September", "October", "November", "December"]

/-- `Timestamp.month_name()`. -/
def monthName (m : Nat) : String := monthNames.getD (m - 1) ""

/-- The English weekday names used by `Series.dt.day_name()`, indexed by
`dayofweek` (Monday = 0). -/
def dayNames : List String :=
  ["Monday", "Tuesday", "Wednesday", "Thursday", "Friday", "Saturday", "Sunday"]

/-- `Timestamp.dayofweek` (Monday = 0), by Zeller's congruence for the
Gregorian calendar. -/
def dayOfWeek (d : Date) : Nat :=
  let y := if d.month ≤ 2 then d.year - 1 else d.year
  let m := if d.month ≤ 2 then d.month + 12 else d.month
  let k := y % 100
  let j := y / 100
  let h := (d.day + (13 * (m + 1)) / 5 + k + k / 4 + j / 4 + 5 * j) % 7
  (h + 5) % 7

/-- `Timestamp.day_name()`. -/
def dayName (d : Date) : String := dayNames.getD (dayOfWeek d) ""

/-- The `seasons` list literal (lines 147-150). -/
def seasons : List String :=
  ["Winter", "Winter", "Spring", "Spring", "Spring", "Summer",
   "Summer", "Summer", "Autumn", "Autumn", "Autumn", "Winter"]

/-- `month_to_season = dict(zip(range(1, 13), seasons))` (line 152). -/
def month_to_season : List (Nat × String) := (List.range' 1 12).zip seasons

/-- One cell of `df[time_var].dt.year`. -/
def dtYearVal (v : Value) : Value :=
  match v with | .date d => .num d.year | _ => .na

/-- One cell of `df[time_var].dt.month_name()`. -/
def dtMonthNameVal (v : Value) : Value :=
  match v with | .date d => .str (monthName d.month) | _ => .na

/-- One cell of `df[time_var].dt.day_name()`. -/
def dtDayNameVal (v : Value) : Value :=
  match v with | .date d => .str (dayName d) | _ => .na

/-- One cell of `df[time_var].dt.month.map(month_to_season)` (a month with
no dictionary entry maps to `NaN`). -/
def dtSeasonVal (v : Value) : Value :=
  match v with
  | .date d =>
    match month_to_season.lookup d.month with
    | some s => .str s
    | none => .na
  | _ => .na

/-- The value list of `df[n]` (`[]` stands for the `KeyError` case). -/
def seriesVals (df : DataFrame) (n : String) : List Value :=
  ((getCol df n).map Column.values).getD []

/-- `df.n = df.n.astype('category')`: recasts an existing column to the
categorical dtype, keeping its values. -/
def astypeCategory (df : DataFrame) (n : String) : DataFrame :=
  match getCol df n with
  | some c => setCol df n ⟨.categorical, c.values⟩
  | none => df

/-- Lines 134-154 of `create_time_vars`: the four feature-extraction
blocks, which mutate the caller-supplied dataframe in place.  This is the
state of the caller's dataframe object after the call. -/
def create_time_vars_inplace (df : DataFrame) (time_var : String)
    (year month day season : Bool) : DataFrame :=
  let df1 := if year then
    astypeCategory (setCol df "year" ⟨.numeric, (seriesVals df time_var).map dtYearVal⟩) "year"
    else df
  let df2 := if month then
    astypeCategory (setCol df1 "month" ⟨.text, (seriesVals df1 time_var).map dtMonthNameVal⟩) "month"
    else df1
  let df3 := if day then
    astypeCategory (setCol df2 "day" ⟨.text, (seriesVals df2 time_var).map dtDayNameVal⟩) "day"
    else df2
  if season then
    astypeCategory (setCol df3 "season" ⟨.text, (seriesVals df3 time_var).map dtSeasonVal⟩) "season"
    else df3

/-- `create_time_vars` (lines 109-160): the dataframe returned to the
caller.  With `drop=True`, line 157 rebinds the local name to the fresh
copy `df.drop(time_var, axis=1)`; the caller's object stays in the
`create_time_vars_inplace` state. -/
def create_time_vars (df : DataFrame) (time_var : String) (year : Bool := true)
    (month : Bool := true) (day : Bool := true) (season : Bool := true)
    (drop : Bool := true) : DataFrame :=
  let dfNew := create_time_vars_inplace df time_var year month day season
  if drop then dropCol dfNew time_var else dfNew

/-! ## `convert_to_categorical` (src/cleaning.py lines 163-184) -/

/-- `convert_to_categorical` (lines 163-184): every non-numeric column plus
the explicitly listed ones is cast to the categorical dtype. -/
def convert_to_categorical (df : DataFrame) (add_vars : List String := []) : DataFrame :=
  let cat_vars := (df.filter (fun p => decide (¬ p.2.kind = .numeric))).map Prod.fst
  let cat_vars2 := if 0 < add_vars.length then cat_vars ++ add_vars else cat_vars
  cat_vars2.foldl astypeCategory df

/-! ## `label_encode` (src/cleaning.py lines 187-209) -/

/-- Rank of a cell value's constructor in the total order used by the
label encoder (numbers, then strings, then dates, then missing values;
`numpy` sorts `NaN` last). -/
def Value.rank (v : Value) : Nat :=
  match v with | .num _ => 0 | .str _ => 1 | .date _ => 2 | .na => 3

/-- Lexicographic comparison of character lists: the order in which Python
compares strings (by code point). -/
def charListLe : List Char → List Char → Bool
  | [], _ => true
  | _ :: _, [] => false
  | a :: as, b :: bs =>
    if a < b then true else if b < a then false else charListLe as bs

/-- Python string `<=` (lexicographic by code point). -/
def strLe (a b : String) : Bool := charListLe a.data b.data

/-- The total order on cell values under which
`LabelEncoder.fit_transform` sorts its classes. -/
def Value.ble (a b : Value) : Bool :=
  match a, b with
  | .num x, .num y => decide (x ≤ y)
  | .str x, .str y => strLe x y
  | .date x, .date y =>
    decide (x.year < y.year ∨ (x.year = y.year ∧
      (x.month < y.month ∨ (x.month = y.month ∧ x.day ≤ y.day))))
  | .na, .na => true
  | a, b => decide (a.rank ≤ b.rank)

/-- `LabelEncoder().fit(vals).classes_`: the distinct values in sorted
order. -/
def classesOf (vals : List Value) : List Value :=
  (vals.dedup).insertionSort (fun a b => Value.ble a b = true)

/-- `LabelEncoder().fit_transform(vals)`: each value replaced by its
0-based index among the sorted distinct values. -/
def fit_transform (vals : List Value) : List Value :=
  vals.map (fun v => .num ((classesOf vals).indexOf v))

/-- `label_encode` (lines 187-209): every categorical, non-excluded column
with at most two distinct observed values (`len(list(df[var].unique())) <= 2`,
missing values included) is replaced by its integer codes; all other
columns are left as they are. -/
def label_encode (df : DataFrame) (exclude_list : List String := []) : DataFrame :=
  let cat_vars := (df.filter (fun p => decide (p.2.kind = .categorical))).map Prod.fst
  let vars_to_encode := cat_vars.filter (fun x => decide (¬ x ∈ exclude_list))
  vars_to_encode.foldl (fun d var =>
    match getCol d var with
    | some c =>
      if (c.values.dedup).length ≤ 2 then setCol d var ⟨.numeric, fit_transform c.values⟩ else d
    | none => d) df

/-! ## Character-level lemmas for the header normalizer -/

theorem char_toNat_ofNat {n : Nat} (h : n < 55296) : (Char.ofNat n).toNat = n := by
  have hv : Nat.isValidChar n := Or.inl h
  simp [Char.ofNat, hv, Char.ofNatAux, Char.toNat, UInt32.ofNat', UInt32.toNat, BitVec.toNat_ofNatLt]

theorem char_toNat_injective : Function.Injective Char.toNat := by
  intro a b h
  exact Char.ext (UInt32.ext h)

theorem toUpper_toNat (c : Char) :
    c.toUpper.toNat = if c.toNat ≥ 97 ∧ c.toNat ≤ 122 then c.toNat - 32 else c.toNat := by
  simp only [Char.toUpper]
  split
  · exact char_toNat_ofNat (by omega)
  · rfl

theorem toLower_toNat (c : Char) :
    c.toLower.toNat = if c.toNat ≥ 65 ∧ c.toNat ≤ 90 then c.toNat + 32 else c.toNat := by
  simp only [Char.toLower]
  split
  · exact char_toNat_ofNat (by omega)
  · rfl

theorem toUpper_ne_space {c : Char} (h : ¬ c = ' ') : ¬ c.toUpper = ' ' := by
  intro hEq
  apply h
  apply char_toNat_injective
  have h2 := congrArg Char.toNat hEq
  rw [toUpper_toNat] at h2
  have h3 : (' ' : Char).toNat = 32 := by decide
  rw [h3] at h2 ⊢
  split at h2 <;> omega

theorem toLower_ne_space {c : Char} (h : ¬ c = ' ') : ¬ c.toLower = ' ' := by
  intro hEq
  apply h
  apply char_toNat_injective
  have h2 := congrArg Char.toNat hEq
  rw [toLower_toNat] at h2
  have h3 : (' ' : Char).toNat = 32 := by decide
  rw [h3] at h2 ⊢
  split at h2 <;> omega

theorem toUpper_ne_dash {c : Char} (h : ¬ c = '-') : ¬ c.toUpper = '-' := by
  intro hEq
  apply h
  apply char_toNat_injective
  have h2 := congrArg Char.toNat hEq
  rw [toUpper_toNat] at h2
  have h3 : ('-' : Char).toNat = 45 := by decide
  rw [h3] at h2 ⊢
  split at h2 <;> omega

theorem toLower_ne_dash {c : Char} (h : ¬ c = '-') : ¬ c.toLower = '-' := by
  intro hEq
  apply h
  apply char_toNat_injective
  have h2 := congrArg Char.toNat hEq
  rw [toLower_toNat] at h2
  have h3 : ('-' : Char).toNat = 45 := by decide
  rw [h3] at h2 ⊢
  split at h2 <;> omega

theorem toUpper_toUpper (c : Char) : c.toUpper.toUpper = c.toUpper := by
  apply char_toNat_injective
  have h1 := toUpper_toNat c
  have hn : ¬ (c.toUpper.toNat ≥ 97 ∧ c.toUpper.toNat ≤ 122) := by
    rw [h1]
    split <;> omega
  rw [toUpper_toNat c.toUpper, if_neg hn]

theorem dashToUnderscore_ne_space {c : Char} (h : ¬ c = ' ') : ¬ dashToUnderscore c = ' ' := by
  unfold dashToUnderscore
  split
  · decide
  · exact h

theorem dashToUnderscore_ne_dash (c : Char) : ¬ dashToUnderscore c = '-' := by
  unfold dashToUnderscore
  split
  · decide
  · assumption

/-! ## Lemmas about renaming -/

theorem string_mk_data (l : List Char) : (String.mk l).data = l := rfl

theorem colNames_renameAll (df : DataFrame) (f : String → String) :
    colNames (renameAll df f) = (colNames df).map f := by
  simp [colNames, renameAll, List.map_map]

theorem upperName_upperName (s : String) : upperName (upperName s) = upperName s := by
  unfold upperName
  rw [string_mk_data, List.map_map]
  exact congrArg String.mk (List.map_congr_left (fun c _ => toUpper_toUpper c))

/-- C9: `clean_headers` called with only a dataframe uses the source's
default switches (`remove_whitespace=True`, the rest `False`), so it
removes the spaces from every column name; on a name containing a space it
is not a no-op. -/
theorem clean_headers_defaults_strip_spaces :
    (∀ df : DataFrame, clean_headers df = renameAll df removeSpaces) ∧
    clean_headers [("a b", ⟨Kind.text, []⟩)] = [("ab", ⟨Kind.text, []⟩)] := by
  constructor
  · intro df
    rfl
  · decide

/-- C6 counterexample: with all four switches on, a column name containing
a tab keeps it (`str.replace(' ', '')` removes only the space character),
so the resulting name still contains a whitespace character, contradicting
the claim that the result contains no whitespace. -/
theorem clean_headers_whitespace_counterexample :
    colNames (clean_headers [("a\tb", ⟨Kind.text, []⟩)] true true true true) = ["A\tB"] ∧
    '\t' ∈ ("A\tB" : String).data ∧ ('\t').isWhitespace = true := by
  refine ⟨by decide, by decide, by decide⟩

/-- C6 (amended): with all four switches on, `clean_headers` maps each
column name through strip-spaces, then dash-to-underscore, then lowercase,
then uppercase, in that fixed order; hence every resulting name is fixed
under uppercasing (uppercase wins because it is applied last), contains no
space character (other whitespace such as tabs is preserved), and contains
no dash. -/
theorem clean_headers_all_switches (df : DataFrame) :
    clean_headers df true true true true =
      renameAll df (fun n => upperName (lowerName (replaceDashes (removeSpaces n)))) ∧
    ∀ n ∈ colNames (clean_headers df true true true true),
      (¬ ' ' ∈ n.data) ∧ (¬ '-' ∈ n.data) ∧ upperName n = n := by
  have heq : clean_headers df true true true true =
      renameAll df (fun n => upperName (lowerName (replaceDashes (removeSpaces n)))) := by
    show renameAll (renameAll (renameAll (renameAll df removeSpaces) replaceDashes) lowerName)
      upperName = _
    simp only [renameAll, List.map_map]
    rfl
  refine ⟨heq, ?_⟩
  intro n hn
  rw [heq, colNames_renameAll, List.mem_map] at hn
  obtain ⟨m, -, hm⟩ := hn
  subst hm
  refine ⟨?_, ?_, upperName_upperName _⟩
  · intro hc
    simp only [upperName, lowerName, replaceDashes, removeSpaces, string_mk_data,
      List.map_map, List.mem_map, Function.comp] at hc
    obtain ⟨c, hc1, hc2⟩ := hc
    have hne : ¬ c = ' ' := by
      rcases List.mem_filter.1 hc1 with ⟨-, h2⟩
      simpa using h2
    exact toUpper_ne_space (toLower_ne_space (dashToUnderscore_ne_space hne)) hc2
  · intro hc
    simp only [upperName, lowerName, replaceDashes, removeSpaces, string_mk_data,
      List.map_map, List.mem_map, Function.comp] at hc
    obtain ⟨c, -, hc2⟩ := hc
    exact toUpper_ne_dash (toLower_ne_dash (dashToUnderscore_ne_dash c)) hc2

/-! ## Basic dataframe lemmas -/

theorem getCol_eq_none {df : DataFrame} {n : String} :
    getCol df n = none ↔ ¬ n ∈ colNames df := by
  unfold getCol colNames
  rw [Option.map_eq_none', List.find?_eq_none]
  constructor
  · intro h hmem
    obtain ⟨p, hp, hpn⟩ := List.mem_map.1 hmem
    have := h p hp
    simp [hpn] at this
  · intro h p hp
    simp only [decide_eq_true_eq]
    intro hpn
    exact h (List.mem_map.2 ⟨p, hp, hpn⟩)

theorem getCol_mem {df : DataFrame} {n : String} {c : Column} (h : getCol df n = some c) :
    (n, c) ∈ df := by
  unfold getCol at h
  rw [Option.map_eq_some'] at h
  obtain ⟨p, hp, hpc⟩ := h
  have h1 : p.1 = n := by simpa using List.find?_some hp
  have h2 : p ∈ df := List.mem_of_find?_eq_some hp
  have : p = (n, c) := by
    cases p
    simp_all
  rwa [this] at h2

theorem getCol_of_mem {df : DataFrame} {n : String} {c : Column}
    (hnd : (colNames df).Nodup) (h : (n, c) ∈ df) : getCol df n = some c := by
  induction df with
  | nil => cases h
  | cons q rest ih =>
    rw [colNames, List.map_cons, List.nodup_cons] at hnd
    rcases List.mem_cons.1 h with h1 | h1
    · unfold getCol
      rw [List.find?_cons_of_pos _ (by simp [← h1])]
      simp [← h1]
    · have hq : ¬ q.1 = n := by
        intro he
        exact hnd.1 (he ▸ (List.mem_map.2 ⟨(n, c), h1, rfl⟩))
      unfold getCol
      rw [List.find?_cons_of_neg _ (by simpa using hq)]
      exact ih hnd.2 h1

theorem entry_unique {df : DataFrame} {p q : String × Column}
    (hnd : (colNames df).Nodup) (hp : p ∈ df) (hq : q ∈ df) (hfst : p.1 = q.1) : p = q := by
  have h1 : getCol df p.1 = some p.2 := getCol_of_mem hnd hp
  have h2 : getCol df q.1 = some q.2 := getCol_of_mem hnd hq
  rw [hfst, h2] at h1
  cases p
  cases q
  simp_all

theorem mem_filterNames_iff {df : DataFrame} {p : String × Column} (P : String × Column → Bool)
    (hnd : (colNames df).Nodup) (hp : p ∈ df) :
    p.1 ∈ (df.filter P).map Prod.fst ↔ P p = true := by
  constructor
  · intro h
    rw [List.mem_map] at h
    obtain ⟨q, hq, hq1⟩ := h
    have hqd : q ∈ df := List.mem_of_mem_filter hq
    have : p = q := entry_unique hnd hp hqd hq1.symm
    rw [this]
    exact List.of_mem_filter hq
  · intro h
    exact List.mem_map.2 ⟨p, List.mem_filter.2 ⟨hp, h⟩, rfl⟩

theorem zip_self_map {α β : Type} (l : List α) (f : α → β) :
    l.zip (l.map f) = l.map (fun x => (x, f x)) := by
  have h := List.zip_map' id f l
  rwa [List.map_id] at h

/-! ## `check_negative`: characterization -/

theorem check_negative_eq (df : DataFrame) (ex : List String)
    (hnd : (colNames df).Nodup) :
    check_negative df ex =
      (df.filter (fun p => decide (p.2.kind = Kind.numeric ∧ ¬ p.1 ∈ ex))).map
        (fun p => (p.1, p.2.values.any isNegative)) := by
  unfold check_negative
  rw [zip_self_map, List.filter_map, List.filter_filter, List.map_map]
  have hpred : ∀ q : String × Column,
      (((fun v => decide (¬ v ∈ ex)) ∘ Prod.fst) q && decide (q.2.kind = Kind.numeric)) =
        decide (q.2.kind = Kind.numeric ∧ ¬ q.1 ∈ ex) := by
    intro q
    by_cases h1 : q.2.kind = Kind.numeric <;> by_cases h2 : q.1 ∈ ex <;>
      simp [Function.comp, h1, h2]
  rw [List.filter_congr (fun q _ => hpred q)]
  apply List.map_congr_left
  intro p hp
  have hpd : p ∈ df := List.mem_of_mem_filter hp
  have : getCol df p.1 = some p.2 := by
    have he : ((p.1, p.2) : String × Column) = p := rfl
    exact getCol_of_mem hnd (he ▸ hpd)
  simp [Function.comp, this]

/-- C5: `check_negative` reports exactly the numeric, non-excluded columns
(in original column order), flagging a column exactly when it contains a
strictly negative value; a column with no values gets flag `false`, and
excluded columns never appear in the report. -/
theorem check_negative_spec (df : DataFrame) (ex : List String)
    (hnd : (colNames df).Nodup) :
    check_negative df ex =
      (df.filter (fun p => decide (p.2.kind = Kind.numeric ∧ ¬ p.1 ∈ ex))).map
        (fun p => (p.1, p.2.values.any isNegative)) ∧
    (∀ c : Column, (c.values.any isNegative) = true ↔ ∃ z : ℤ, Value.num z ∈ c.values ∧ z < 0) ∧
    (∀ c : Column, c.values = [] → (c.values.any isNegative) = false) ∧
    (∀ n ∈ ex, ¬ n ∈ (check_negative df ex).map Prod.fst) := by
  refine ⟨check_negative_eq df ex hnd, ?_, ?_, ?_⟩
  · intro c
    rw [List.any_eq_true]
    constructor
    · rintro ⟨v, hv, hneg⟩
      cases v with
      | num z =>
        exact ⟨z, hv, by simpa [isNegative] using hneg⟩
      | na => simp [isNegative] at hneg
      | str s => simp [isNegative] at hneg
      | date d => simp [isNegative] at hneg
    · rintro ⟨z, hz, hneg⟩
      exact ⟨Value.num z, hz, by simp [isNegative, hneg]⟩
  · intro c hc
    rw [hc]
    rfl
  · intro n hn hmem
    rw [check_negative_eq df ex hnd, List.map_map, List.mem_map] at hmem
    obtain ⟨q, hq, hq1⟩ := hmem
    have := List.of_mem_filter hq
    rw [decide_eq_true_eq] at this
    exact this.2 (by rwa [← hq1] at hn)

/-- C5 witness: the characterization applied to a concrete dataframe with
a negative-valued column, an all-missing numeric column, an excluded
numeric column, and a non-numeric column. -/
theorem check_negative_spec_witness :
    check_negative
        [("a", ⟨Kind.numeric, [Value.num (-1), Value.num 3]⟩),
         ("b", ⟨Kind.numeric, [Value.na]⟩),
         ("c", ⟨Kind.numeric, [Value.num 2]⟩),
         ("d", ⟨Kind.text, [Value.str "x"]⟩)] ["c"] =
      [("a", true), ("b", false)] := by
  have h := check_negative_spec
    [("a", ⟨Kind.numeric, [Value.num (-1), Value.num 3]⟩),
     ("b", ⟨Kind.numeric, [Value.na]⟩),
     ("c", ⟨Kind.numeric, [Value.num 2]⟩),
     ("d", ⟨Kind.text, [Value.str "x"]⟩)] ["c"] (by decide)
  rw [h.1]
  decide

/-- C10: a numeric, non-excluded column whose values are all missing gets
flag `false` in the `check_negative` report: a missing value compared with
zero is not strictly negative, so missing values never flag a column. -/
theorem check_negative_all_missing (df : DataFrame) (ex : List String) (n : String) (c : Column)
    (hnd : (colNames df).Nodup) (hmem : (n, c) ∈ df) (hk : c.kind = Kind.numeric)
    (hex : ¬ n ∈ ex) (hall : ∀ v ∈ c.values, v = Value.na) :
    (n, false) ∈ check_negative df ex := by
  rw [check_negative_eq df ex hnd]
  have hflag : c.values.any isNegative = false := by
    rw [List.any_eq_false]
    intro v hv
    rw [hall v hv]
    simp [isNegative]
  have : ((n, c) : String × Column) ∈ df.filter (fun p => decide (p.2.kind = Kind.numeric ∧ ¬ p.1 ∈ ex)) :=
    List.mem_filter.2 ⟨hmem, by simp [hk, hex]⟩
  have h2 := List.mem_map_of_mem (fun p => (p.1, p.2.values.any isNegative)) this
  simpa [hflag] using h2

/-- C10 witness: a numeric all-missing column `b` gets flag `false`. -/
theorem check_negative_all_missing_witness :
    (("b", false) : String × Bool) ∈ check_negative
      [("a", ⟨Kind.numeric, [Value.num 1]⟩),
       ("b", ⟨Kind.numeric, [Value.na, Value.na]⟩)] [] := by
  exact check_negative_all_missing _ [] "b" ⟨Kind.numeric, [Value.na, Value.na]⟩
    (by decide) (by decide) rfl (by decide) (by decide)

/-! ## `check_missing`: characterization -/

theorem missingFrac_nonneg (c : Column) : 0 ≤ missingFrac c := by
  unfold missingFrac
  positivity

theorem missingFrac_le_one (c : Column) : missingFrac c ≤ 1 := by
  unfold missingFrac
  rcases Nat.eq_zero_or_pos c.values.length with h | h
  · rw [h]
    norm_num
  · rw [div_le_one (by exact_mod_cast h)]
    exact_mod_cast List.countP_le_length isNA

/-- Tie-order-insensitive properties of the `check_missing` report: it
holds exactly the columns with a strictly positive missing percentage,
each value is the missing fraction times 100 and lies in `(0, 100]`, and
the report is sorted non-increasing.  These hold for every descending
sort, so they do not depend on how the unstable default quicksort of
`sort_values` happens to order tied percentages. -/
theorem check_missing_report_props (df : DataFrame) :
    (check_missing df).Perm
      ((df.map (fun p => (p.1, missingFrac p.2 * 100))).filter (fun p => decide (0 < p.2))) ∧
    (check_missing df).Pairwise (fun a b => b.2 ≤ a.2) ∧
    (∀ p ∈ check_missing df, 0 < p.2 ∧ p.2 ≤ 100) := by
  have hmm : (df.map (fun p : String × Column => (p.1, missingFrac p.2))).map
      (fun p : String × ℚ => (p.1, p.2 * 100)) =
      df.map (fun p => (p.1, missingFrac p.2 * 100)) := by
    rw [List.map_map]
    rfl
  have hperm : (sortDescBySnd (df.map (fun p => (p.1, missingFrac p.2)))).Perm
      (df.map (fun p => (p.1, missingFrac p.2))) := List.perm_insertionSort _ _
  refine ⟨?_, ?_, ?_⟩
  · have := (hperm.map (fun p : String × ℚ => (p.1, p.2 * 100))).filter
      (fun p : String × ℚ => decide (0 < p.2))
    rwa [hmm] at this
  · haveI hT : IsTotal (String × ℚ) (fun a b => b.2 ≤ a.2) := ⟨fun a b => le_total b.2 a.2⟩
    haveI hR : IsTrans (String × ℚ) (fun a b => b.2 ≤ a.2) :=
      ⟨fun _ _ _ h1 h2 => le_trans h2 h1⟩
    have hs : (sortDescBySnd (df.map (fun p => (p.1, missingFrac p.2)))).Pairwise
        (fun a b : String × ℚ => b.2 ≤ a.2) :=
      List.sorted_insertionSort _ _
    show ((((sortDescBySnd (df.map (fun p => (p.1, missingFrac p.2)))).map
        (fun p : String × ℚ => (p.1, p.2 * 100))).filter
        (fun p => decide (0 < p.2)))).Pairwise (fun a b : String × ℚ => b.2 ≤ a.2)
    exact List.Pairwise.filter _
      (List.Pairwise.map (fun p : String × ℚ => (p.1, p.2 * 100))
        (fun a b h => mul_le_mul_of_nonneg_right h (by norm_num)) hs)
  · intro p hp
    rcases List.mem_filter.1 hp with ⟨hp1, hp2⟩
    refine ⟨by simpa using hp2, ?_⟩
    rw [List.mem_map] at hp1
    obtain ⟨q, hq, hqe⟩ := hp1
    rw [sortDescBySnd, List.mem_insertionSort, List.mem_map] at hq
    obtain ⟨pc, -, hpc⟩ := hq
    have h2 : p.2 = q.2 * 100 := by rw [← hqe]
    have h3 : q.2 = missingFrac pc.2 := by rw [← hpc]
    rw [h2, h3]
    nlinarith [missingFrac_le_one pc.2]

/-- Concrete check with pairwise-distinct percentages (so no tie order is
exercised): the fully-missing column comes first, the half-missing column
second, and the column with no missing values is absent. -/
theorem check_missing_example :
    check_missing
        [("a", ⟨Kind.numeric, [Value.na, Value.num 1]⟩),
         ("c", ⟨Kind.numeric, [Value.na, Value.na]⟩),
         ("d", ⟨Kind.numeric, [Value.num 7, Value.num 8]⟩)] =
      [("c", 100), ("a", 50)] := by
  norm_num [check_missing, missingFrac, sortDescBySnd, List.insertionSort,
    List.orderedInsert, isNA, List.filter]

/-! ## Structural lemmas for column assignment and drop -/

theorem colNames_append (d1 d2 : DataFrame) :
    colNames (d1 ++ d2) = colNames d1 ++ colNames d2 := List.map_append _ _ _

theorem any_name_eq (df : DataFrame) (n : String) :
    df.any (fun p => decide (p.1 = n)) = true ↔ n ∈ colNames df := by
  rw [List.any_eq_true]
  constructor
  · rintro ⟨p, hp, hd⟩
    rw [decide_eq_true_eq] at hd
    exact List.mem_map.2 ⟨p, hp, hd⟩
  · intro h
    obtain ⟨p, hp, hpn⟩ := List.mem_map.1 h
    exact ⟨p, hp, by simp [hpn]⟩

theorem setCol_fresh {df : DataFrame} {n : String} (c : Column) (h : ¬ n ∈ colNames df) :
    setCol df n c = df ++ [(n, c)] := by
  unfold setCol
  rw [if_neg (fun hany => h ((any_name_eq df n).1 hany))]

theorem setCol_overwrite_fresh {df : DataFrame} {n : String} (c c' : Column)
    (h : ¬ n ∈ colNames df) :
    setCol (df ++ [(n, c)]) n c' = df ++ [(n, c')] := by
  unfold setCol
  rw [if_pos ((any_name_eq _ n).2 (by rw [colNames_append]; simp [colNames]))]
  rw [List.map_append]
  congr 1
  · have hpt : ∀ p ∈ df, (if p.1 = n then (n, c') else p) = p := by
      intro p hp
      rw [if_neg]
      intro he
      exact h (List.mem_map.2 ⟨p, hp, he⟩)
    rw [List.map_congr_left hpt]
    simp
  · simp

theorem getCol_append_left {df df' : DataFrame} {n : String} {c : Column}
    (h : getCol df n = some c) : getCol (df ++ df') n = some c := by
  unfold getCol at h ⊢
  rw [List.find?_append]
  rw [Option.map_eq_some'] at h
  obtain ⟨p, hp, hpc⟩ := h
  rw [hp]
  simp [hpc]

theorem getCol_append_right {df df' : DataFrame} {n : String}
    (h : ¬ n ∈ colNames df) : getCol (df ++ df') n = getCol df' n := by
  unfold getCol
  rw [List.find?_append]
  have hnone : df.find? (fun p => decide (p.1 = n)) = none := by
    rw [List.find?_eq_none]
    intro p hp
    simp only [decide_eq_true_eq]
    intro he
    exact h (List.mem_map.2 ⟨p, hp, he⟩)
  rw [hnone, Option.none_or]

theorem getCol_singleton (n : String) (c : Column) : getCol [(n, c)] n = some c := by
  simp [getCol]

theorem seriesVals_of_getCol {df : DataFrame} {tv : String} {c : Column}
    (h : getCol df tv = some c) : seriesVals df tv = c.values := by
  unfold seriesVals
  rw [h]
  rfl

theorem astypeCategory_append_fresh {df : DataFrame} {n : String} {k : Kind} {vs : List Value}
    (h : ¬ n ∈ colNames df) :
    astypeCategory (setCol df n ⟨k, vs⟩) n = df ++ [(n, ⟨Kind.categorical, vs⟩)] := by
  rw [setCol_fresh _ h]
  unfold astypeCategory
  rw [getCol_append_right h, getCol_singleton]
  exact setCol_overwrite_fresh _ _ h

theorem fresh_append {df ext : DataFrame} {n : String}
    (h1 : ¬ n ∈ colNames df) (h2 : ¬ n ∈ colNames ext) : ¬ n ∈ colNames (df ++ ext) := by
  rw [colNames_append]
  simp [h1, h2]

theorem dropCol_append (d1 d2 : DataFrame) (n : String) :
    dropCol (d1 ++ d2) n = dropCol d1 n ++ dropCol d2 n := List.filter_append _ _

theorem dropCol_eq_self {df : DataFrame} {n : String} (h : ¬ n ∈ colNames df) :
    dropCol df n = df := by
  rw [dropCol, List.filter_eq_self]
  intro p hp
  simp only [decide_eq_true_eq]
  intro he
  exact h (List.mem_map.2 ⟨p, hp, he⟩)

theorem not_mem_colNames_dropCol (df : DataFrame) (n : String) :
    ¬ n ∈ colNames (dropCol df n) := by
  intro hmem
  obtain ⟨p, hp, hpn⟩ := List.mem_map.1 hmem
  have := List.of_mem_filter hp
  rw [decide_eq_true_eq] at this
  exact this hpn

theorem mem_colNames_setCol {df : DataFrame} {n' n : String} (c : Column)
    (h : n' ∈ colNames df) : n' ∈ colNames (setCol df n c) := by
  unfold setCol
  split
  · obtain ⟨p, hp, hpn⟩ := List.mem_map.1 h
    by_cases he : p.1 = n
    · refine List.mem_map.2 ⟨(n, c), List.mem_map.2 ⟨p, hp, by rw [if_pos he]⟩, ?_⟩
      rw [← hpn, he]
    · exact List.mem_map.2 ⟨p, List.mem_map.2 ⟨p, hp, by rw [if_neg he]⟩, hpn⟩
  · rw [colNames_append]
    exact List.mem_append.2 (Or.inl h)

theorem mem_colNames_astypeCategory {df : DataFrame} {n' n : String}
    (h : n' ∈ colNames df) : n' ∈ colNames (astypeCategory df n) := by
  unfold astypeCategory
  split
  · exact mem_colNames_setCol _ h
  · exact h

/-! ## `create_time_vars`: the derived columns and the frame shape -/

/-- The `year` feature column (`dt.year`, cast to categorical). -/
def yearColumn (c : Column) : Column := ⟨Kind.categorical, c.values.map dtYearVal⟩

/-- The `month` feature column (`dt.month_name()`, cast to categorical). -/
def monthColumn (c : Column) : Column := ⟨Kind.categorical, c.values.map dtMonthNameVal⟩

/-- The `day` feature column (`dt.day_name()`, cast to categorical). -/
def dayColumn (c : Column) : Column := ⟨Kind.categorical, c.values.map dtDayNameVal⟩

/-- The `season` feature column (month mapped through `month_to_season`,
cast to categorical). -/
def seasonColumn (c : Column) : Column := ⟨Kind.categorical, c.values.map dtSeasonVal⟩

/-- The block of new columns appended by `create_time_vars`, in the fixed
source order `year`, `month`, `day`, `season`, keeping only the requested
ones. -/
def newTimeCols (c : Column) (year month day season : Bool) : DataFrame :=
  (if year then [("year", yearColumn c)] else []) ++
  (if month then [("month", monthColumn c)] else []) ++
  (if day then [("day", dayColumn c)] else []) ++
  (if season then [("season", seasonColumn c)] else [])

theorem mem_switch_singleton {p q : String × Column} {b : Bool}
    (h : p ∈ (if b then [q] else [])) : p = q := by
  cases b
  · simp at h
  · simpa using h

theorem mem_newTimeCols {c : Column} {y m d s : Bool} {p : String × Column}
    (h : p ∈ newTimeCols c y m d s) :
    p = ("year", yearColumn c) ∨ p = ("month", monthColumn c) ∨
    p = ("day", dayColumn c) ∨ p = ("season", seasonColumn c) := by
  unfold newTimeCols at h
  simp only [List.mem_append] at h
  rcases h with ((h | h) | h) | h
  · exact Or.inl (mem_switch_singleton h)
  · exact Or.inr (Or.inl (mem_switch_singleton h))
  · exact Or.inr (Or.inr (Or.inl (mem_switch_singleton h)))
  · exact Or.inr (Or.inr (Or.inr (mem_switch_singleton h)))

theorem mem_colNames_newTimeCols {c : Column} {y m d s : Bool} {n : String}
    (h : n ∈ colNames (newTimeCols c y m d s)) :
    n = "year" ∨ n = "month" ∨ n = "day" ∨ n = "season" := by
  obtain ⟨p, hp, hpn⟩ := List.mem_map.1 h
  rcases mem_newTimeCols hp with h1 | h1 | h1 | h1 <;> rw [h1] at hpn <;> simp [← hpn]

theorem values_newTimeCols {c : Column} {y m d s : Bool} {p : String × Column}
    (h : p ∈ newTimeCols c y m d s) : p.2.values.length = c.values.length := by
  rcases mem_newTimeCols h with h1 | h1 | h1 | h1 <;> rw [h1] <;>
    simp [yearColumn, monthColumn, dayColumn, seasonColumn]

theorem mem_colNames_switch {n' nm : String} {col : Column} {b : Bool}
    (h : n' ∈ colNames (if b then [(nm, col)] else [])) : n' = nm := by
  cases b
  · simp [colNames] at h
  · simpa [colNames] using h

theorem create_time_vars_inplace_eq (df : DataFrame) (tv : String) (c : Column)
    (y m d s : Bool) (hc : getCol df tv = some c)
    (hy : ¬ "year" ∈ colNames df) (hm : ¬ "month" ∈ colNames df)
    (hd : ¬ "day" ∈ colNames df) (hs : ¬ "season" ∈ colNames df) :
    create_time_vars_inplace df tv y m d s = df ++ newTimeCols c y m d s := by
  have hfr : ∀ (b : Bool) (nm n' : String) (col : Column), ¬ n' = nm →
      ¬ n' ∈ colNames (if b then [(nm, col)] else []) := by
    intro b nm n' col hne hmem
    exact hne (mem_colNames_switch hmem)
  have h1 : (if y then
      astypeCategory (setCol df "year" ⟨Kind.numeric, (seriesVals df tv).map dtYearVal⟩) "year"
      else df) = df ++ (if y then [("year", yearColumn c)] else []) := by
    cases y
    · simp
    · rw [if_pos rfl, if_pos rfl, seriesVals_of_getCol hc, astypeCategory_append_fresh hy]
      rfl
  simp only [create_time_vars_inplace]
  rw [h1]
  set B1 : DataFrame := df ++ (if y then [("year", yearColumn c)] else []) with hB1
  have hcB1 : getCol B1 tv = some c := getCol_append_left hc
  have hmB1 : ¬ "month" ∈ colNames B1 := fresh_append hm (hfr y "year" "month" _ (by decide))
  have hdB1 : ¬ "day" ∈ colNames B1 := fresh_append hd (hfr y "year" "day" _ (by decide))
  have hsB1 : ¬ "season" ∈ colNames B1 := fresh_append hs (hfr y "year" "season" _ (by decide))
  have h2 : (if m then
      astypeCategory (setCol B1 "month" ⟨Kind.text, (seriesVals B1 tv).map dtMonthNameVal⟩)
        "month" else B1) = B1 ++ (if m then [("month", monthColumn c)] else []) := by
    cases m
    · simp
    · rw [if_pos rfl, if_pos rfl, seriesVals_of_getCol hcB1, astypeCategory_append_fresh hmB1]
      rfl
  rw [h2]
  set B2 : DataFrame := B1 ++ (if m then [("month", monthColumn c)] else []) with hB2
  have hcB2 : getCol B2 tv = some c := getCol_append_left hcB1
  have hdB2 : ¬ "day" ∈ colNames B2 := fresh_append hdB1 (hfr m "month" "day" _ (by decide))
  have hsB2 : ¬ "season" ∈ colNames B2 :=
    fresh_append hsB1 (hfr m "month" "season" _ (by decide))
  have h3 : (if d then
      astypeCategory (setCol B2 "day" ⟨Kind.text, (seriesVals B2 tv).map dtDayNameVal⟩)
        "day" else B2) = B2 ++ (if d then [("day", dayColumn c)] else []) := by
    cases d
    · simp
    · rw [if_pos rfl, if_pos rfl, seriesVals_of_getCol hcB2, astypeCategory_append_fresh hdB2]
      rfl
  rw [h3]
  set B3 : DataFrame := B2 ++ (if d then [("day", dayColumn c)] else []) with hB3
  have hcB3 : getCol B3 tv = some c := getCol_append_left hcB2
  have hsB3 : ¬ "season" ∈ colNames B3 := fresh_append hsB2 (hfr d "day" "season" _ (by decide))
  have h4 : (if s then
      astypeCategory (setCol B3 "season" ⟨Kind.text, (seriesVals B3 tv).map dtSeasonVal⟩)
        "season" else B3) = B3 ++ (if s then [("season", seasonColumn c)] else []) := by
    cases s
    · simp
    · rw [if_pos rfl, if_pos rfl, seriesVals_of_getCol hcB3, astypeCategory_append_fresh hsB3]
      rfl
  rw [h4, hB3, hB2, hB1]
  simp [newTimeCols, List.append_assoc]

theorem create_time_vars_eq (df : DataFrame) (tv : String) (c : Column)
    (y m d s dr : Bool) (hc : getCol df tv = some c)
    (hy : ¬ "year" ∈ colNames df) (hm : ¬ "month" ∈ colNames df)
    (hd : ¬ "day" ∈ colNames df) (hs : ¬ "season" ∈ colNames df) :
    create_time_vars df tv y m d s dr =
      (if dr then dropCol df tv else df) ++ newTimeCols c y m d s := by
  unfold create_time_vars
  rw [create_time_vars_inplace_eq df tv c y m d s hc hy hm hd hs]
  cases dr
  · simp
  · rw [if_pos rfl, if_pos rfl, dropCol_append]
    congr 1
    apply dropCol_eq_self
    intro hmem
    have htv : tv ∈ colNames df := List.mem_map.2 ⟨(tv, c), getCol_mem hc, rfl⟩
    rcases mem_colNames_newTimeCols hmem with h1 | h1 | h1 | h1 <;> rw [h1] at htv
    · exact hy htv
    · exact hm htv
    · exact hd htv
    · exact hs htv

theorem colNames_dropCol_subset {df : DataFrame} {v n : String}
    (h : n ∈ colNames (dropCol df v)) : n ∈ colNames df := by
  obtain ⟨p, hp, hpn⟩ := List.mem_map.1 h
  exact List.mem_map.2 ⟨p, List.mem_of_mem_filter hp, hpn⟩

/-- C1 counterexample: with `drop=True` the returned dataframe and the
caller-supplied dataframe's final state are different dataframes: the
caller's object (modelled by `create_time_vars_inplace`) still contains
the source timestamp column, while the returned dataframe does not. -/
theorem create_time_vars_drop_counterexample :
    ¬ "t" ∈ colNames (create_time_vars
        [("t", ⟨Kind.datetime, [Value.date ⟨2023, 7, 15⟩]⟩)] "t" true true true true true) ∧
    "t" ∈ colNames (create_time_vars_inplace
        [("t", ⟨Kind.datetime, [Value.date ⟨2023, 7, 15⟩]⟩)] "t" true true true true) ∧
    ¬ create_time_vars [("t", ⟨Kind.datetime, [Value.date ⟨2023, 7, 15⟩]⟩)] "t"
        true true true true true =
      create_time_vars_inplace [("t", ⟨Kind.datetime, [Value.date ⟨2023, 7, 15⟩]⟩)] "t"
        true true true true := by
  refine ⟨by decide, by decide, by decide⟩

/-- C1 (amended): with `drop=True` the dataframe returned by
`create_time_vars` does not contain the source timestamp column, but it is
a distinct dataframe from the caller-supplied one: `df.drop` builds a new
frame, so the caller's dataframe (its state after the call is
`create_time_vars_inplace`) still contains the source column. -/
theorem create_time_vars_drop_amended (df : DataFrame) (tv : String) (y m d s : Bool)
    (h : tv ∈ colNames df) :
    ¬ tv ∈ colNames (create_time_vars df tv y m d s true) ∧
    tv ∈ colNames (create_time_vars_inplace df tv y m d s) := by
  constructor
  · unfold create_time_vars
    rw [if_pos rfl]
    exact not_mem_colNames_dropCol _ tv
  · have step : ∀ (b : Bool) (dfc : DataFrame) (nm : String) (col : Column),
        tv ∈ colNames dfc →
        tv ∈ colNames (if b then astypeCategory (setCol dfc nm col) nm else dfc) := by
      intro b dfc nm col hmem
      cases b
      · simpa using hmem
      · simpa using mem_colNames_astypeCategory (mem_colNames_setCol col hmem)
    simp only [create_time_vars_inplace]
    exact step s _ _ _ (step d _ _ _ (step m _ _ _ (step y _ _ _ h)))

/-- C1 witness: the amended statement at a concrete dataframe. -/
theorem create_time_vars_drop_amended_witness :
    ¬ "u" ∈ colNames (create_time_vars
        [("u", ⟨Kind.datetime, [Value.date ⟨2024, 1, 2⟩]⟩)] "u" true true true true true) ∧
    "u" ∈ colNames (create_time_vars_inplace
        [("u", ⟨Kind.datetime, [Value.date ⟨2024, 1, 2⟩]⟩)] "u" true true true true) :=
  create_time_vars_drop_amended _ "u" true true true true (by decide)

/-- C7 counterexample: on a dataframe that already has a column named
`year`, `create_time_vars` with the year switch on overwrites that column
in place instead of appending a new one, so the new column order is not
the original order followed by the new names, and an existing column's
values change. -/
theorem create_time_vars_append_counterexample :
    create_time_vars [("year", ⟨Kind.numeric, [Value.num 7]⟩),
        ("t", ⟨Kind.datetime, [Value.date ⟨2023, 7, 15⟩]⟩)] "t" true false false false false =
      [("year", ⟨Kind.categorical, [Value.num 2023]⟩),
       ("t", ⟨Kind.datetime, [Value.date ⟨2023, 7, 15⟩]⟩)] ∧
    ¬ colNames (create_time_vars [("year", ⟨Kind.numeric, [Value.num 7]⟩),
        ("t", ⟨Kind.datetime, [Value.date ⟨2023, 7, 15⟩]⟩)] "t" true false false false false) =
      ["year", "t"] ++ ["year"] ∧
    ¬ getCol (create_time_vars [("year", ⟨Kind.numeric, [Value.num 7]⟩),
        ("t", ⟨Kind.datetime, [Value.date ⟨2023, 7, 15⟩]⟩)] "t" true false false false false)
        "year" = some ⟨Kind.numeric, [Value.num 7]⟩ := by
  refine ⟨by decide, by decide, by decide⟩

/-- C7 (amended): for every dataset none of whose columns is already named
`year`, `month`, `day` or `season`, and every combination of the switches,
`create_time_vars` returns the original columns (minus the source column
when `drop` is on) unchanged and in order, followed by the requested new
columns in the fixed order `year`, `month`, `day`, `season`; every column
of the result keeps the dataset's row count.  (If one of the four names
already exists, that column is overwritten in place instead of appended.) -/
theorem create_time_vars_shape (df : DataFrame) (tv : String) (c : Column)
    (y m d s dr : Bool) (R : ℕ) (hc : getCol df tv = some c)
    (hy : ¬ "year" ∈ colNames df) (hm : ¬ "month" ∈ colNames df)
    (hd : ¬ "day" ∈ colNames df) (hs : ¬ "season" ∈ colNames df)
    (hwf : ∀ p ∈ df, p.2.values.length = R) :
    create_time_vars df tv y m d s dr =
      (if dr then dropCol df tv else df) ++ newTimeCols c y m d s ∧
    (∀ p ∈ create_time_vars df tv y m d s dr, p.2.values.length = R) := by
  have heq := create_time_vars_eq df tv c y m d s dr hc hy hm hd hs
  refine ⟨heq, ?_⟩
  intro p hp
  rw [heq, List.mem_append] at hp
  rcases hp with hp | hp
  · have hpd : p ∈ df := by
      cases dr
      · simpa using hp
      · have h2 : p ∈ dropCol df tv := by simpa using hp
        rw [dropCol] at h2
        exact List.mem_of_mem_filter h2
    exact hwf p hpd
  · rw [values_newTimeCols hp]
    exact hwf (tv, c) (getCol_mem hc)

/-- C7 witness: the shape equation at a concrete dataframe. -/
theorem create_time_vars_shape_witness :
    create_time_vars [("amount", ⟨Kind.numeric, [Value.num 4]⟩),
        ("t", ⟨Kind.datetime, [Value.date ⟨2023, 12, 1⟩]⟩)] "t" true true true true false =
      [("amount", ⟨Kind.numeric, [Value.num 4]⟩),
       ("t", ⟨Kind.datetime, [Value.date ⟨2023, 12, 1⟩]⟩)] ++
        newTimeCols ⟨Kind.datetime, [Value.date ⟨2023, 12, 1⟩]⟩ true true true true := by
  have h := create_time_vars_shape
    [("amount", ⟨Kind.numeric, [Value.num 4]⟩),
     ("t", ⟨Kind.datetime, [Value.date ⟨2023, 12, 1⟩]⟩)] "t"
    ⟨Kind.datetime, [Value.date ⟨2023, 12, 1⟩]⟩ true true true true false 1
    (by decide) (by decide) (by decide) (by decide) (by decide) (by decide)
  exact h.1

/-- C4: with the season switch on (all other switches and the dataset
arbitrary, the four feature names fresh), the `season` column of the
result assigns to every row holding a date the season determined solely by
the row's month number: 12, 1, 2 give Winter; 3-5 Spring; 6-8 Summer;
9-11 Autumn. -/
theorem create_time_vars_season (df : DataFrame) (tv : String) (c : Column)
    (y m d dr : Bool) (hc : getCol df tv = some c)
    (hy : ¬ "year" ∈ colNames df) (hm : ¬ "month" ∈ colNames df)
    (hd : ¬ "day" ∈ colNames df) (hs : ¬ "season" ∈ colNames df) :
    getCol (create_time_vars df tv y m d true dr) "season" =
      some ⟨Kind.categorical, c.values.map dtSeasonVal⟩ ∧
    ∀ (i : ℕ) (dt : Date), c.values[i]? = some (Value.date dt) →
      1 ≤ dt.month → dt.month ≤ 12 →
      (c.values.map dtSeasonVal)[i]? = some (Value.str
        (if dt.month = 12 ∨ dt.month = 1 ∨ dt.month = 2 then "Winter"
         else if 3 ≤ dt.month ∧ dt.month ≤ 5 then "Spring"
         else if 6 ≤ dt.month ∧ dt.month ≤ 8 then "Summer"
         else "Autumn")) := by
  constructor
  · rw [create_time_vars_eq df tv c y m d true dr hc hy hm hd hs]
    have hbase : ¬ "season" ∈ colNames (if dr then dropCol df tv else df) := by
      cases dr
      · simpa using hs
      · intro hmem
        exact hs (colNames_dropCol_subset (by simpa using hmem))
    rw [getCol_append_right hbase]
    unfold newTimeCols
    have hpre : ¬ "season" ∈ colNames
        (((if y then [("year", yearColumn c)] else []) ++
          (if m then [("month", monthColumn c)] else [])) ++
          (if d then [("day", dayColumn c)] else [])) := by
      intro hmem
      rw [colNames_append, List.mem_append] at hmem
      rcases hmem with hmem | hmem
      · rw [colNames_append, List.mem_append] at hmem
        rcases hmem with hmem | hmem
        · exact absurd (mem_colNames_switch hmem) (by decide)
        · exact absurd (mem_colNames_switch hmem) (by decide)
      · exact absurd (mem_colNames_switch hmem) (by decide)
    rw [getCol_append_right hpre, if_pos rfl, getCol_singleton]
    rfl
  · intro i dt hvi h1 h12
    rw [List.getElem?_map, hvi, Option.map_some']
    show some (dtSeasonVal (Value.date dt)) = _
    simp only [dtSeasonVal]
    have h3 : dt.month = 1 ∨ dt.month = 2 ∨ dt.month = 3 ∨ dt.month = 4 ∨ dt.month = 5 ∨
        dt.month = 6 ∨ dt.month = 7 ∨ dt.month = 8 ∨ dt.month = 9 ∨ dt.month = 10 ∨
        dt.month = 11 ∨ dt.month = 12 := by omega
    rcases h3 with h | h | h | h | h | h | h | h | h | h | h | h <;> rw [h] <;> decide

/-- C4 witness: the season column at a concrete two-row dataframe, one row
in July (Summer) and one in December (Winter). -/
theorem create_time_vars_season_witness :
    getCol (create_time_vars
        [("t", ⟨Kind.datetime, [Value.date ⟨2023, 7, 15⟩, Value.date ⟨2023, 12, 1⟩]⟩)] "t"
        true true true true false) "season" =
      some ⟨Kind.categorical,
        [Value.date ⟨2023, 7, 15⟩, Value.date ⟨2023, 12, 1⟩].map dtSeasonVal⟩ := by
  have h := create_time_vars_season
    [("t", ⟨Kind.datetime, [Value.date ⟨2023, 7, 15⟩, Value.date ⟨2023, 12, 1⟩]⟩)] "t"
    ⟨Kind.datetime, [Value.date ⟨2023, 7, 15⟩, Value.date ⟨2023, 12, 1⟩]⟩ true true true false
    (by decide) (by decide) (by decide) (by decide) (by decide)
  exact h.1

/-! ## Pointwise column updates (`convert_to_categorical`, `label_encode`) -/

theorem colNames_map_pointwise (df : DataFrame) (g : String → Column → Column) (n : String) :
    colNames (df.map (fun p => if p.1 = n then (p.1, g p.1 p.2) else p)) = colNames df := by
  unfold colNames
  rw [List.map_map]
  apply List.map_congr_left
  intro p hp
  by_cases h : p.1 = n <;> simp [h]

theorem map_pointwise_nil (df : DataFrame) (g : String → Column → Column) :
    df.map (fun p => if p.1 ∈ ([] : List String) then (p.1, g p.1 p.2) else p) = df := by
  have h : ∀ p ∈ df, (if p.1 ∈ ([] : List String) then (p.1, g p.1 p.2) else p) = p := by
    intro p hp
    rw [if_neg (by simp)]
  rw [List.map_congr_left h]
  simp

theorem astypeCategory_pointwise (d : DataFrame) (var : String)
    (hnd : (colNames d).Nodup) :
    astypeCategory d var =
      d.map (fun p => if p.1 = var then (p.1, ⟨Kind.categorical, p.2.values⟩) else p) := by
  cases hg : getCol d var with
  | none =>
    simp only [astypeCategory, hg]
    rw [getCol_eq_none] at hg
    symm
    have h : ∀ p ∈ d,
        (if p.1 = var then (p.1, (⟨Kind.categorical, p.2.values⟩ : Column)) else p) = p := by
      intro p hp
      rw [if_neg]
      intro he
      exact hg (List.mem_map.2 ⟨p, hp, he⟩)
    rw [List.map_congr_left h]
    simp
  | some c =>
    simp only [astypeCategory, hg]
    unfold setCol
    rw [if_pos ((any_name_eq _ _).2 (List.mem_map.2 ⟨(var, c), getCol_mem hg, rfl⟩))]
    apply List.map_congr_left
    intro p hp
    by_cases he : p.1 = var
    · rw [if_pos he, if_pos he]
      have hpc : p = (var, c) := entry_unique hnd hp (getCol_mem hg) (by rw [he])
      rw [hpc]
    · rw [if_neg he, if_neg he]

theorem foldl_astypeCategory (ns : List String) (df : DataFrame)
    (hnd : (colNames df).Nodup) :
    ns.foldl astypeCategory df =
      df.map (fun p => if p.1 ∈ ns then (p.1, ⟨Kind.categorical, p.2.values⟩) else p) := by
  induction ns generalizing df with
  | nil =>
    rw [List.foldl_nil, map_pointwise_nil df (fun _ c => ⟨Kind.categorical, c.values⟩)]
  | cons n rest ih =>
    rw [List.foldl_cons, astypeCategory_pointwise df n hnd]
    have hnd' : (colNames (df.map
        (fun p => if p.1 = n then (p.1, (⟨Kind.categorical, p.2.values⟩ : Column)) else p))).Nodup := by
      rw [colNames_map_pointwise df (fun _ c => ⟨Kind.categorical, c.values⟩) n]
      exact hnd
    rw [ih _ hnd', List.map_map]
    apply List.map_congr_left
    intro p hp
    by_cases h1 : p.1 = n <;> by_cases h2 : p.1 ∈ rest <;>
      simp [Function.comp, h1, h2, List.mem_cons]

/-- C8: `convert_to_categorical` recasts exactly the non-numeric columns
and the explicitly listed columns (even numeric ones) to the categorical
kind; every column keeps its name, position, and sequence of values, so
only the declared kind changes.  Listing a column that is already selected
(a duplicate in the selection) makes no difference, as the recast is
idempotent. -/
theorem convert_to_categorical_spec (df : DataFrame) (add_vars : List String)
    (hnd : (colNames df).Nodup) (hsub : ∀ a ∈ add_vars, a ∈ colNames df) :
    convert_to_categorical df add_vars =
      df.map (fun p => if ¬ p.2.kind = Kind.numeric ∨ p.1 ∈ add_vars then
        (p.1, ⟨Kind.categorical, p.2.values⟩) else p) ∧
    (convert_to_categorical df add_vars).map (fun p => (p.1, p.2.values)) =
      df.map (fun p => (p.1, p.2.values)) ∧
    colNames (convert_to_categorical df add_vars) = colNames df := by
  have heq : convert_to_categorical df add_vars =
      df.map (fun p => if ¬ p.2.kind = Kind.numeric ∨ p.1 ∈ add_vars then
        (p.1, ⟨Kind.categorical, p.2.values⟩) else p) := by
    unfold convert_to_categorical
    rw [foldl_astypeCategory _ df hnd]
    apply List.map_congr_left
    intro p hp
    have hmemcat : p.1 ∈ (df.filter (fun q => decide (¬ q.2.kind = Kind.numeric))).map Prod.fst ↔
        ¬ p.2.kind = Kind.numeric := by
      rw [mem_filterNames_iff _ hnd hp, decide_eq_true_eq]
    have hcond : (p.1 ∈ (if 0 < add_vars.length then
        (df.filter (fun q => decide (¬ q.2.kind = Kind.numeric))).map Prod.fst ++ add_vars
        else (df.filter (fun q => decide (¬ q.2.kind = Kind.numeric))).map Prod.fst)) ↔
        (¬ p.2.kind = Kind.numeric ∨ p.1 ∈ add_vars) := by
      by_cases hl : 0 < add_vars.length
      · rw [if_pos hl, List.mem_append, hmemcat]
      · rw [if_neg hl]
        have : add_vars = [] := List.length_eq_zero.1 (by omega)
        rw [this, hmemcat]
        simp
    rw [if_congr hcond rfl rfl]
  refine ⟨heq, ?_, ?_⟩
  · rw [heq, List.map_map]
    apply List.map_congr_left
    intro p hp
    by_cases h : ¬ p.2.kind = Kind.numeric ∨ p.1 ∈ add_vars <;>
      simp [Function.comp, h]
  · rw [heq]
    unfold colNames
    rw [List.map_map]
    apply List.map_congr_left
    intro p hp
    by_cases h : ¬ p.2.kind = Kind.numeric ∨ p.1 ∈ add_vars <;> simp [Function.comp, h]

/-- C8 witness: the characterization applied to a concrete dataframe with
a text column, an explicitly listed numeric column, and an untouched
numeric column. -/
theorem convert_to_categorical_spec_witness :
    convert_to_categorical
        [("region", ⟨Kind.text, [Value.str "N", Value.str "S"]⟩),
         ("amount", ⟨Kind.numeric, [Value.num 3, Value.num 4]⟩),
         ("other", ⟨Kind.numeric, [Value.num 5, Value.num 6]⟩)] ["amount"] =
      [("region", ⟨Kind.categorical, [Value.str "N", Value.str "S"]⟩),
       ("amount", ⟨Kind.categorical, [Value.num 3, Value.num 4]⟩),
       ("other", ⟨Kind.numeric, [Value.num 5, Value.num 6]⟩)] := by
  have h := convert_to_categorical_spec
    [("region", ⟨Kind.text, [Value.str "N", Value.str "S"]⟩),
     ("amount", ⟨Kind.numeric, [Value.num 3, Value.num 4]⟩),
     ("other", ⟨Kind.numeric, [Value.num 5, Value.num 6]⟩)] ["amount"]
    (by decide) (by decide)
  rw [h.1]
  decide

/-! ## The label encoder's total order on cell values -/

theorem charListLe_total : ∀ as bs : List Char,
    charListLe as bs = true ∨ charListLe bs as = true := by
  intro as
  induction as with
  | nil => intro bs; left; rfl
  | cons a as ih =>
    intro bs
    cases bs with
    | nil => right; rfl
    | cons b bs =>
      by_cases hab : a < b
      · left
        simp [charListLe, hab]
      · by_cases hba : b < a
        · right
          simp [charListLe, hba]
        · rcases ih bs with h | h
          · left
            simp [charListLe, hab, hba, h]
          · right
            simp [charListLe, hab, hba, h]

theorem charListLe_trans : ∀ as bs cs : List Char,
    charListLe as bs = true → charListLe bs cs = true → charListLe as cs = true := by
  intro as
  induction as with
  | nil => intro bs cs h1 h2; rfl
  | cons a as ih =>
    intro bs cs h1 h2
    cases bs with
    | nil => simp [charListLe] at h1
    | cons b bs =>
      cases cs with
      | nil => simp [charListLe] at h2
      | cons c cs =>
        by_cases hac : a < c
        · simp [charListLe, hac]
        · by_cases hab : a < b
          · by_cases hbc : b < c
            · exact absurd (lt_trans hab hbc) hac
            · by_cases hcb : c < b
              · simp [charListLe, hbc, hcb] at h2
              · have hbceq : b = c := le_antisymm (not_lt.1 hcb) (not_lt.1 hbc)
                exact absurd (hbceq ▸ hab) hac
          · by_cases hba : b < a
            · simp [charListLe, hab, hba] at h1
            · have habeq : a = b := le_antisymm (not_lt.1 hba) (not_lt.1 hab)
              by_cases hbc : b < c
              · exact absurd (habeq ▸ hbc) hac
              · by_cases hcb : c < b
                · simp [charListLe, hbc, hcb] at h2
                · have hbceq : b = c := le_antisymm (not_lt.1 hcb) (not_lt.1 hbc)
                  have hca : ¬ c < a := by
                    rw [← hbceq, ← habeq]
                    exact lt_irrefl a
                  simp only [charListLe, hab, hba, hbc, hcb, hac, hca, if_neg, if_false] at h1 h2 ⊢
                  exact ih bs cs h1 h2

theorem ble_total (a b : Value) : Value.ble a b = true ∨ Value.ble b a = true := by
  cases a <;> cases b <;> simp [Value.ble, Value.rank, strLe] <;>
    first
    | omega
    | exact charListLe_total _ _

theorem ble_trans (a b c : Value) :
    Value.ble a b = true → Value.ble b c = true → Value.ble a c = true := by
  cases a <;> cases b <;> cases c <;> simp [Value.ble, Value.rank, strLe] <;>
    first
    | omega
    | (intro h1 h2; exact charListLe_trans _ _ _ h1 h2)

/-! ## `label_encode`: characterization -/

/-- The per-column effect of the `label_encode` loop body: encode when the
column has at most two distinct observed values, otherwise leave it. -/
def encodeColumn (c : Column) : Column :=
  if (c.values.dedup).length ≤ 2 then ⟨Kind.numeric, fit_transform c.values⟩ else c

theorem labelStep_pointwise (d : DataFrame) (var : String) (hnd : (colNames d).Nodup) :
    (match getCol d var with
     | some c => if (c.values.dedup).length ≤ 2 then
         setCol d var ⟨Kind.numeric, fit_transform c.values⟩ else d
     | none => d) =
      d.map (fun p => if p.1 = var then (p.1, encodeColumn p.2) else p) := by
  cases hg : getCol d var with
  | none =>
    simp only
    rw [getCol_eq_none] at hg
    symm
    have h : ∀ p ∈ d, (if p.1 = var then (p.1, encodeColumn p.2) else p) = p := by
      intro p hp
      rw [if_neg]
      intro he
      exact hg (List.mem_map.2 ⟨p, hp, he⟩)
    rw [List.map_congr_left h]
    simp
  | some c =>
    simp only
    by_cases hle : (c.values.dedup).length ≤ 2
    · rw [if_pos hle]
      unfold setCol
      rw [if_pos ((any_name_eq _ _).2 (List.mem_map.2 ⟨(var, c), getCol_mem hg, rfl⟩))]
      apply List.map_congr_left
      intro p hp
      by_cases he : p.1 = var
      · rw [if_pos he, if_pos he]
        have hpc : p = (var, c) := entry_unique hnd hp (getCol_mem hg) (by rw [he])
        rw [hpc]
        simp [encodeColumn, hle]
      · rw [if_neg he, if_neg he]
    · rw [if_neg hle]
      symm
      have h : ∀ p ∈ d, (if p.1 = var then (p.1, encodeColumn p.2) else p) = p := by
        intro p hp
        by_cases he : p.1 = var
        · have hpc : p = (var, c) := entry_unique hnd hp (getCol_mem hg) (by rw [he])
          rw [if_pos he, hpc]
          simp [encodeColumn, hle]
        · rw [if_neg he]
      rw [List.map_congr_left h]
      simp

theorem foldl_labelStep (ns : List String) (df : DataFrame)
    (hnd : (colNames df).Nodup) (hns : ns.Nodup) :
    ns.foldl (fun d var =>
      match getCol d var with
      | some c => if (c.values.dedup).length ≤ 2 then
          setCol d var ⟨Kind.numeric, fit_transform c.values⟩ else d
      | none => d) df =
      df.map (fun p => if p.1 ∈ ns then (p.1, encodeColumn p.2) else p) := by
  induction ns generalizing df with
  | nil =>
    rw [List.foldl_nil, map_pointwise_nil df (fun _ c => encodeColumn c)]
  | cons n rest ih =>
    rw [List.foldl_cons, labelStep_pointwise df n hnd]
    rw [List.nodup_cons] at hns
    have hnd' : (colNames (df.map
        (fun p => if p.1 = n then (p.1, encodeColumn p.2) else p))).Nodup := by
      rw [colNames_map_pointwise df (fun _ c => encodeColumn c) n]
      exact hnd
    rw [ih _ hnd' hns.2, List.map_map]
    apply List.map_congr_left
    intro p hp
    by_cases h1 : p.1 = n
    · have h2 : ¬ n ∈ rest := hns.1
      simp [Function.comp, h1, h2, List.mem_cons]
    · by_cases h2 : p.1 ∈ rest <;> simp [Function.comp, h1, h2, List.mem_cons]

/-- C3: `label_encode` replaces the values of exactly the categorical,
non-excluded columns having at most two distinct observed values (missing
values count as a distinct value) by 0-based integer codes: each value is
mapped, consistently across the column, to its index among the distinct
values in sorted order; categorical columns with three or more distinct
values, and excluded columns, are left unmodified. -/
theorem label_encode_spec (df : DataFrame) (ex : List String)
    (hnd : (colNames df).Nodup) :
    label_encode df ex =
      df.map (fun p => if p.2.kind = Kind.categorical ∧ ¬ p.1 ∈ ex ∧
          (p.2.values.dedup).length ≤ 2 then
        (p.1, ⟨Kind.numeric, fit_transform p.2.values⟩) else p) ∧
    (∀ vals : List Value, fit_transform vals =
      vals.map (fun v => Value.num ((classesOf vals).indexOf v))) ∧
    (∀ vals : List Value, (classesOf vals).Pairwise (fun a b => Value.ble a b = true) ∧
      (classesOf vals).Nodup ∧ (∀ v : Value, v ∈ classesOf vals ↔ v ∈ vals) ∧
      (classesOf vals).length = vals.dedup.length) ∧
    (∀ (vals : List Value) (v : Value), v ∈ vals →
      (classesOf vals).indexOf v < (classesOf vals).length) := by
  refine ⟨?_, fun vals => rfl, ?_, ?_⟩
  · unfold label_encode
    have hnscat : ((df.filter (fun p => decide (p.2.kind = Kind.categorical))).map
        Prod.fst).Nodup := by
      have hsub : ((df.filter (fun p => decide (p.2.kind = Kind.categorical))).map
          Prod.fst).Sublist (df.map Prod.fst) :=
        (List.filter_sublist df).map Prod.fst
      exact List.Nodup.sublist hsub hnd
    have hns : (((df.filter (fun p => decide (p.2.kind = Kind.categorical))).map
        Prod.fst).filter (fun x => decide (¬ x ∈ ex))).Nodup :=
      List.Nodup.sublist (List.filter_sublist _) hnscat
    rw [foldl_labelStep _ df hnd hns]
    apply List.map_congr_left
    intro p hp
    have hcond : (p.1 ∈ ((df.filter (fun q => decide (q.2.kind = Kind.categorical))).map
        Prod.fst).filter (fun x => decide (¬ x ∈ ex))) ↔
        (p.2.kind = Kind.categorical ∧ ¬ p.1 ∈ ex) := by
      rw [List.mem_filter, mem_filterNames_iff _ hnd hp]
      simp
    by_cases h1 : p.2.kind = Kind.categorical ∧ ¬ p.1 ∈ ex
    · rw [if_pos (hcond.2 h1)]
      by_cases h2 : (p.2.values.dedup).length ≤ 2
      · rw [if_pos ⟨h1.1, h1.2, h2⟩]
        simp [encodeColumn, h2]
      · rw [if_neg (by tauto)]
        simp [encodeColumn, h2]
    · rw [if_neg (fun hmem => h1 (hcond.1 hmem)), if_neg (by tauto)]
  · intro vals
    haveI hT : IsTotal Value (fun a b => Value.ble a b = true) := ⟨ble_total⟩
    haveI hR : IsTrans Value (fun a b => Value.ble a b = true) := ⟨ble_trans⟩
    refine ⟨List.sorted_insertionSort _ _, ?_, ?_, ?_⟩
    · exact (List.perm_insertionSort _ _).symm.nodup (List.nodup_dedup vals)
    · intro v
      rw [classesOf, List.mem_insertionSort, List.mem_dedup]
    · rw [classesOf, List.length_insertionSort]
  · intro vals v hv
    rw [List.indexOf_lt_length, classesOf, List.mem_insertionSort, List.mem_dedup]
    exact hv

/-- C3 witness: a two-category column is encoded 0-based in sorted order
("no" before "yes"), a three-category column and an excluded two-category
column are untouched. -/
theorem label_encode_spec_witness :
    label_encode
        [("resp", ⟨Kind.categorical, [Value.str "yes", Value.str "no", Value.str "yes"]⟩),
         ("city", ⟨Kind.categorical, [Value.str "a", Value.str "b", Value.str "c"]⟩),
         ("keep", ⟨Kind.categorical, [Value.str "x", Value.str "y"]⟩)] ["keep"] =
      [("resp", ⟨Kind.numeric, [Value.num 1, Value.num 0, Value.num 1]⟩),
       ("city", ⟨Kind.categorical, [Value.str "a", Value.str "b", Value.str "c"]⟩),
       ("keep", ⟨Kind.categorical, [Value.str "x", Value.str "y"]⟩)] := by
  have h := label_encode_spec
    [("resp", ⟨Kind.categorical, [Value.str "yes", Value.str "no", Value.str "yes"]⟩),
     ("city", ⟨Kind.categorical, [Value.str "a", Value.str "b", Value.str "c"]⟩),
     ("keep", ⟨Kind.categorical, [Value.str "x", Value.str "y"]⟩)] ["keep"] (by decide)
  rw [h.1]
  decide

/-- C6 witness: the amended statement applied to a concrete dataframe. -/
theorem clean_headers_all_switches_witness :
    clean_headers [(" Sale-Date ", ⟨Kind.datetime, []⟩)] true true true true =
      renameAll [(" Sale-Date ", ⟨Kind.datetime, []⟩)]
        (fun n => upperName (lowerName (replaceDashes (removeSpaces n)))) :=
  (clean_headers_all_switches _).1
